import Mathlib

/-!
Verification of the nestedutils path-access library (src/nestedutils) against
its natural-language specification.

This file gives a shallow embedding of the library in Lean 4:

* Python values that the engine distinguishes (dict, list, tuple, None, and
  scalar leaves) become the inductive type Value.  Dicts are modelled as
  insertion-ordered association lists over Key, matching Python dict
  semantics for the key shapes the engine produces (str and int keys, which
  are never equal to each other in Python).
* The path argument of the public functions (a str, a list of tokens, or
  anything else) becomes the inductive type PathArg.
* Stateful in-place mutation (set_at, delete_at) is modelled by returning
  the updated root; on tree-shaped data this is exactly the in-place
  behaviour of the source.
* Exceptions become Except results.  PathError carries its PathErrorCode.
  crucially, enums.py defines ONLY the five members INVALID_INDEX,
  MISSING_KEY, EMPTY_PATH, IMMUTABLE_CONTAINER and INVALID_PATH; the code in
  access.py and helpers.py also references PathErrorCode.NON_NAVIGABLE_TYPE
  (and helpers.py references PathErrorCode.OPERATION_DISABLED), and in
  Python evaluating a missing enum member raises AttributeError.  That
  behaviour is modelled by the PyError.attributeError constructor.
-/

namespace NestedUtils

/-- The five members actually defined in src/nestedutils/enums.py.
NON_NAVIGABLE_TYPE and OPERATION_DISABLED are referenced elsewhere in the
source but are NOT members of the enum. -/
inductive PathErrorCode where
  | INVALID_INDEX
  | MISSING_KEY
  | EMPTY_PATH
  | IMMUTABLE_CONTAINER
  | INVALID_PATH
  deriving DecidableEq, Repr

/-- A raised Python exception, as the library's callers can observe it.
pathError models exceptions.PathError (the message string is dropped, only
the machine-readable code is kept); attributeError models the AttributeError
Python raises when the code evaluates a PathErrorCode member that enums.py
does not define. -/
inductive PyError where
  | pathError (code : PathErrorCode)
  | attributeError (missingMember : String)
  deriving DecidableEq, Repr

/-- A normalized path token as produced by helpers.normalize_path: either a
Python str or a Python int.  In Python a str key and an int key are never
equal, which the sum type reflects. -/
inductive Key where
  | str (s : String)
  | int (n : Int)
  deriving DecidableEq, Repr

/-- One element of a list-form path argument before normalization: a str, an
int, or any other object (carried by the result of Python str() on it, which
is all normalize_path uses). -/
inductive PTok where
  | str (s : String)
  | int (n : Int)
  | other (strRepr : String)
  deriving DecidableEq, Repr

/-- The path argument of the public functions: a dot-notation string, a list
of tokens, or any other Python object (rejected by normalize_path). -/
inductive PathArg where
  | str (s : String)
  | list (toks : List PTok)
  | other
  deriving DecidableEq, Repr

/-- A Python value as the engine distinguishes them: dict (association list
of Key/Value entries in insertion order), list, tuple, None, or a scalar
leaf (int or str cover every leaf the claims need). -/
inductive Value where
  | dict (entries : List (Key × Value))
  | list (items : List Value)
  | tuple (items : List Value)
  | none
  | int (n : Int)
  | str (s : String)

/-- constants.MAX_DEPTH -/
def MAX_DEPTH : Nat := 100

/-- constants.MAX_LIST_SIZE -/
def MAX_LIST_SIZE : Int := 10000

/-- Value of a nonempty all-digit character list, none otherwise. -/
def digitsVal : Nat → List Char → Option Nat
  | acc, [] => some acc
  | acc, c :: cs => if c.isDigit then digitsVal (acc * 10 + (c.toNat - 48)) cs else Option.none

/-- Python int(s) on a string: optional sign followed by decimal digits.
(Python additionally strips whitespace and allows underscore separators;
those forms never arise from the library's own paths and are out of scope.) -/
def pyStrToInt? (s : String) : Option Int :=
  match s.data with
  | [] => Option.none
  | '-' :: [] => Option.none
  | '-' :: cs => (digitsVal 0 cs).map (fun n => -(n : Int))
  | '+' :: [] => Option.none
  | '+' :: cs => (digitsVal 0 cs).map (fun n => (n : Int))
  | cs => (digitsVal 0 cs).map (fun n => (n : Int))

/-- helpers.is_int_key: integers qualify; a string qualifies when it is
nonempty and int(key) succeeds. -/
def is_int_key : Key → Bool
  | .int _ => true
  | .str s => s ≠ "" && (pyStrToInt? s).isSome

/-- helpers.parse_int_key: an int is returned as is; a string is parsed with
int(), raising PathError INVALID_INDEX when unparseable. -/
def parse_int_key : Key → Except PyError Int
  | .int n => .ok n
  | .str s =>
    match pyStrToInt? s with
    | some n => .ok n
    | Option.none => .error (.pathError .INVALID_INDEX)

/-- Normalization of one element of a list-form path (the loop body of
helpers.normalize_path): ints are preserved, empty strings fail with
EMPTY_PATH, other objects are stringified (failing when str() is empty). -/
def normListTok : PTok → Except PyError Key
  | .int n => .ok (.int n)
  | .str s => if s = "" then .error (.pathError .EMPTY_PATH) else .ok (.str s)
  | .other r => if r = "" then .error (.pathError .EMPTY_PATH) else .ok (.str r)

/-- The loop of helpers.normalize_path over a list-form path: the first
failing element raises. -/
def normListToks : List PTok → Except PyError (List Key)
  | [] => .ok []
  | t :: ts => do
    let k ← normListTok t
    let ks ← normListToks ts
    .ok (k :: ks)

/-- Helper of splitDots: the remaining characters and the segment collected
so far. -/
def splitDotsGo : List Char → List Char → List String
  | [], acc => [String.mk acc]
  | c :: cs, acc =>
    if c = '.' then String.mk acc :: splitDotsGo cs []
    else splitDotsGo cs (acc ++ [c])

/-- Python str.split(".") with its single-character separator: consecutive,
leading or trailing dots yield empty segments, and the empty string splits
to a single empty segment. -/
def splitDots (s : String) : List String := splitDotsGo s.data []

/-- helpers.normalize_path. -/
def normalize_path : PathArg → Except PyError (List Key)
  | .list toks => do
    let keys ← normListToks toks
    if keys = [] then .error (.pathError .EMPTY_PATH)
    else if keys.length > MAX_DEPTH then .error (.pathError .INVALID_PATH)
    else if keys.any (fun k => k = .str "") then .error (.pathError .EMPTY_PATH)
    else .ok keys
  | .str s =>
    let keys := (splitDots s).map Key.str
    if keys = [] then .error (.pathError .EMPTY_PATH)
    else if keys.length > MAX_DEPTH then .error (.pathError .INVALID_PATH)
    else if keys.any (fun k => k = .str "") then .error (.pathError .EMPTY_PATH)
    else .ok keys
  | .other => .error (.pathError .INVALID_PATH)

/-- helpers.resolve_read_index: negative indices wrap by the length; an
in-bounds resolved index is returned, out of bounds yields none ("not
found"). -/
def resolve_read_index (container : List Value) (key : Key) : Except PyError (Option Nat) :=
  match parse_int_key key with
  | .error e => .error e
  | .ok idx0 =>
    let idx : Int := if idx0 < 0 then (container.length : Int) + idx0 else idx0
    if 0 ≤ idx ∧ idx < (container.length : Int) then .ok (some idx.toNat) else .ok Option.none

/-- helpers.resolve_write_index: the MAX_LIST_SIZE guard comes first, then
negative indices must resolve into bounds, then non-negative indices must
not exceed the length (index = length means append). -/
def resolve_write_index (container : List Value) (key : Key) : Except PyError Nat :=
  match parse_int_key key with
  | .error e => .error e
  | .ok idx =>
    let length : Int := container.length
    if idx > MAX_LIST_SIZE then .error (.pathError .INVALID_INDEX)
    else if idx < 0 then
      let resolved := length + idx
      if resolved < 0 ∨ resolved ≥ length then .error (.pathError .INVALID_INDEX)
      else .ok resolved.toNat
    else if idx > length then .error (.pathError .INVALID_INDEX)
    else .ok idx.toNat

/-- helpers.create_intermediate_container: a list when the next key is
numeric, a dict otherwise. -/
def create_intermediate_container (next_key : Key) : Value :=
  if is_int_key next_key then .list [] else .dict []

/-- Python dict lookup d[k] (first matching entry; Python keys are unique,
first-match lookup agrees on any well-formed dict). -/
def dictGet : List (Key × Value) → Key → Option Value
  | [], _ => Option.none
  | (k', v) :: rest, k => if k' = k then some v else dictGet rest k

/-- Python membership test: k in d. -/
def dictHas (d : List (Key × Value)) (k : Key) : Bool :=
  (dictGet d k).isSome

/-- Python dict assignment d[k] = v: replace in place when present (keeping
insertion order), append otherwise. -/
def dictSet : List (Key × Value) → Key → Value → List (Key × Value)
  | [], k, v => [(k, v)]
  | (k', v') :: rest, k, v =>
    if k' = k then (k', v) :: rest else (k', v') :: dictSet rest k v

/-- Python dict.pop(k): the removed value and the remaining entries. -/
def dictPop : List (Key × Value) → Key → Option (Value × List (Key × Value))
  | [], _ => Option.none
  | (k', v') :: rest, k =>
    if k' = k then some (v', rest)
    else (dictPop rest k).map (fun p => (p.1, (k', v') :: p.2))

/-- The traversal loop of access.get_at over the normalized keys.  The
default parameter is Option Value, with Lean none standing for the absent
_MISSING sentinel (an explicit Python None default is some Value.none).
Note the leaf branch: with no default the source raises
PathError(msg, PathErrorCode.NON_NAVIGABLE_TYPE), and since enums.py has no
such member, evaluating it raises AttributeError. -/
def getGo (current : Value) (keys : List Key) (default : Option Value) :
    Except PyError Value :=
  match keys with
  | [] => .ok current
  | key :: rest =>
    match current with
    | .dict d =>
      match dictGet d key with
      | Option.none =>
        match default with
        | some dv => .ok dv
        | Option.none => .error (.pathError .MISSING_KEY)
      | some v => getGo v rest default
    | .list l =>
      if is_int_key key then
        match resolve_read_index l key with
        | .error e => .error e
        | .ok Option.none =>
          match default with
          | some dv => .ok dv
          | Option.none => .error (.pathError .INVALID_INDEX)
        | .ok (some i) =>
          match l.get? i with
          | some v => getGo v rest default
          | Option.none => .error (.pathError .INVALID_INDEX)
      else
        match default with
        | some dv => .ok dv
        | Option.none => .error (.pathError .INVALID_INDEX)
    | .tuple l =>
      if is_int_key key then
        match resolve_read_index l key with
        | .error e => .error e
        | .ok Option.none =>
          match default with
          | some dv => .ok dv
          | Option.none => .error (.pathError .INVALID_INDEX)
        | .ok (some i) =>
          match l.get? i with
          | some v => getGo v rest default
          | Option.none => .error (.pathError .INVALID_INDEX)
      else
        match default with
        | some dv => .ok dv
        | Option.none => .error (.pathError .INVALID_INDEX)
    | _ =>
      match default with
      | some dv => .ok dv
      | Option.none => .error (.attributeError "NON_NAVIGABLE_TYPE")

/-- access.get_at. -/
def get_at (data : Value) (path : PathArg) (default : Option Value := Option.none) :
    Except PyError Value := do
  let keys ← normalize_path path
  getGo data keys default

/-- access.exists_at.  It calls get_at and catches PathError; the except
handler then builds the tuple (MISSING_KEY, INVALID_INDEX,
NON_NAVIGABLE_TYPE), and evaluating the absent member NON_NAVIGABLE_TYPE
raises AttributeError, so every caught PathError turns into AttributeError.
An AttributeError coming out of get_at is not caught at all. -/
def exists_at (data : Value) (path : PathArg) : Except PyError Bool :=
  match get_at data path Option.none with
  | .ok _ => .ok true
  | .error (.pathError _) => .error (.attributeError "NON_NAVIGABLE_TYPE")
  | .error e => .error e

/-- The final-key block of access.set_at: assign into a dict, or resolve a
strict index on a list (append exactly at the length, needing create;
in-place replacement otherwise). -/
def setFinal (current : Value) (key : Key) (value : Value) (create : Bool) :
    Except PyError Value :=
  match current with
  | .dict d => .ok (.dict (dictSet d key value))
  | .list l =>
    if is_int_key key then
      match resolve_write_index l key with
      | .error e => .error e
      | .ok idx =>
        if idx = l.length then
          if create then .ok (.list (l ++ [value]))
          else .error (.pathError .INVALID_INDEX)
        else .ok (.list (l.set idx value))
    else .error (.pathError .INVALID_INDEX)
  | .tuple _ => .error (.pathError .IMMUTABLE_CONTAINER)
  | _ => .error (.pathError .INVALID_PATH)

/-- access.set_at on normalized keys: the intermediate-key loop followed by
the final assignment, written as structural recursion on the keys.  The
in-place mutation of the source is modelled by rebuilding the containers
along the (unique) visited path, which on tree-shaped data is the same
transformation.  The leaf branch of the loop references the absent enum
member NON_NAVIGABLE_TYPE, hence AttributeError. -/
def setGo (current : Value) (keys : List Key) (value : Value) (create : Bool) :
    Except PyError Value :=
  match keys with
  | [] => .error (.pathError .EMPTY_PATH)  -- unreachable: normalize_path never returns []
  | [key] => setFinal current key value create
  | key :: next_key :: restTail =>
    let rest := next_key :: restTail
    match current with
    | .dict d =>
      match dictGet d key with
      | Option.none =>
        if create then do
          let child ← setGo (create_intermediate_container next_key) rest value create
          .ok (.dict (dictSet d key child))
        else .error (.pathError .MISSING_KEY)
      | some .none =>
        if create then do
          let child ← setGo (create_intermediate_container next_key) rest value create
          .ok (.dict (dictSet d key child))
        else .error (.pathError .MISSING_KEY)
      | some v => do
        let child ← setGo v rest value create
        .ok (.dict (dictSet d key child))
    | .list l =>
      if is_int_key key then
        match resolve_write_index l key with
        | .error e => .error e
        | .ok idx =>
          if idx = l.length then
            if create then do
              let child ← setGo (create_intermediate_container next_key) rest value create
              .ok (.list (l ++ [child]))
            else .error (.pathError .INVALID_INDEX)
          else
            match l.get? idx with
            | some .none =>
              if create then do
                let child ← setGo (create_intermediate_container next_key) rest value create
                .ok (.list (l.set idx child))
              else .error (.pathError .MISSING_KEY)
            | some v => do
              let child ← setGo v rest value create
              .ok (.list (l.set idx child))
            | Option.none => .error (.pathError .INVALID_INDEX)  -- unreachable: idx < length here
      else .error (.pathError .INVALID_INDEX)
    | .tuple _ => .error (.pathError .IMMUTABLE_CONTAINER)
    | _ => .error (.attributeError "NON_NAVIGABLE_TYPE")

/-- access.set_at. -/
def set_at (data : Value) (path : PathArg) (value : Value) (create : Bool := false) :
    Except PyError Value := do
  let keys ← normalize_path path
  setGo data keys value create

/-- The parent-navigation loop plus the final-key block of access.delete_at,
as structural recursion on the keys, returning the removed value together
with the updated root. -/
def deleteGo (current : Value) (keys : List Key) (allow_list_mutation : Bool) :
    Except PyError (Value × Value) :=
  match keys with
  | [] => .error (.pathError .EMPTY_PATH)  -- unreachable: normalize_path never returns []
  | [key] =>
    match current with
    | .dict d =>
      match dictPop d key with
      | some (v, d') => .ok (v, .dict d')
      | Option.none => .error (.pathError .MISSING_KEY)
    | .list l =>
      if allow_list_mutation then
        if is_int_key key then
          match resolve_read_index l key with
          | .error e => .error e
          | .ok Option.none => .error (.pathError .INVALID_INDEX)
          | .ok (some i) =>
            match l.get? i with
            | some v => .ok (v, .list (l.eraseIdx i))
            | Option.none => .error (.pathError .INVALID_INDEX)  -- unreachable: i < length
        else .error (.pathError .INVALID_INDEX)
      else .error (.pathError .INVALID_PATH)
    | .tuple _ => .error (.pathError .IMMUTABLE_CONTAINER)
    | _ => .error (.pathError .INVALID_PATH)
  | key :: rest =>
    match current with
    | .dict d =>
      match dictGet d key with
      | Option.none => .error (.pathError .MISSING_KEY)
      | some v => do
        let (removed, v') ← deleteGo v rest allow_list_mutation
        .ok (removed, .dict (dictSet d key v'))
    | .list l =>
      if is_int_key key then
        match resolve_read_index l key with
        | .error e => .error e
        | .ok Option.none => .error (.pathError .INVALID_INDEX)
        | .ok (some i) =>
          match l.get? i with
          | some v => do
            let (removed, v') ← deleteGo v rest allow_list_mutation
            .ok (removed, .list (l.set i v'))
          | Option.none => .error (.pathError .INVALID_INDEX)  -- unreachable: i < length
      else .error (.pathError .INVALID_INDEX)
    | .tuple l =>
      if is_int_key key then
        match resolve_read_index l key with
        | .error e => .error e
        | .ok Option.none => .error (.pathError .INVALID_INDEX)
        | .ok (some i) =>
          match l.get? i with
          | some v => do
            -- a tuple is immutable: navigating deeper can still mutate a
            -- nested mutable container, but the tuple itself is rebuilt
            -- unchanged apart from that shared child, which in the
            -- tree-shaped model is the set at index i
            let (removed, v') ← deleteGo v rest allow_list_mutation
            .ok (removed, .tuple (l.set i v'))
          | Option.none => .error (.pathError .INVALID_INDEX)
      else .error (.pathError .INVALID_INDEX)
    | _ => .error (.pathError .INVALID_PATH)

/-- access.delete_at: returns the removed value and the updated root. -/
def delete_at (data : Value) (path : PathArg) (allow_list_mutation : Bool := false) :
    Except PyError (Value × Value) := do
  let keys ← normalize_path path
  deleteGo data keys allow_list_mutation

/-! The fill-strategy variant of set.  The source under src/ has no
fill-strategy parameter: set_at only takes create.  The repository's
test_access.py exercises a set_path function with a fill_strategy keyword,
but that function itself is not under src/, so the fill-strategy set is
modelled from the spec (sections 3, 4.3, 4.4 and 4.5) below. -/

/-- Modelled from the spec: the fill-strategy enumeration of section 3
(auto, none-fill, force-mapping, force-sequence); the implementation of the
spec's set with a fillStrategy option is missing from src/. -/
inductive FillStrategy where
  | auto
  | noneFill
  | forceMapping
  | forceSequence
  deriving DecidableEq, Repr

/-- Modelled from the spec: which strategies permit gap-filling.  Per the
no-sparse invariant (section 8) the default auto strategy does not fill
gaps; none-fill fills them with a null placeholder (section 3) and the
forced strategies fill them with an empty container of the forced kind
(section 4.4). -/
def isGapFilling : FillStrategy → Bool
  | .auto => false
  | .noneFill => true
  | .forceMapping => true
  | .forceSequence => true

/-- Modelled from the spec: the gap filler of sections 3 and 4.4 — a null
placeholder for none-fill, an empty container of the forced kind for the
forced strategies (auto never fills, its placeholder is never used). -/
def fillPlaceholder : FillStrategy → Value
  | .auto => .none
  | .noneFill => .none
  | .forceMapping => .dict []
  | .forceSequence => .list []

/-- Modelled from the spec: the Container Factory create_for of section 4.4
— force-mapping makes a mapping, force-sequence a sequence, auto and
none-fill choose by the next token's shape. -/
def create_for (strat : FillStrategy) (next_key : Key) : Value :=
  match strat with
  | .forceMapping => .dict []
  | .forceSequence => .list []
  | _ => if is_int_key next_key then .list [] else .dict []

/-- Modelled from the spec: the set operation of section 4.5 with its
fillStrategy option, over a root and an already-normalized token sequence
(the spec's operations take normalized tokens).  Sequences are resolved
strictly; a positive token beyond the length is allowed only when the
strategy permits gap-filling, create is enabled and the token does not
exceed the maximum append offset 10000, in which case the skipped slots are
back-filled with the strategy's placeholder. -/
def setSpec (current : Value) (keys : List Key) (value : Value)
    (create : Bool) (strat : FillStrategy) : Except PyError Value :=
  match keys with
  | [] => .error (.pathError .EMPTY_PATH)  -- unreachable: a path has at least one token
  | [key] =>
    match current with
    | .dict d => .ok (.dict (dictSet d key value))
    | .list l =>
      match parse_int_key key with
      | .error e => .error e
      | .ok t =>
        if t < 0 then
          let resolved : Int := (l.length : Int) + t
          if 0 ≤ resolved ∧ resolved < (l.length : Int) then
            .ok (.list (l.set resolved.toNat value))
          else .error (.pathError .INVALID_INDEX)
        else if t < (l.length : Int) then .ok (.list (l.set t.toNat value))
        else if t = (l.length : Int) then
          if create then .ok (.list (l ++ [value]))
          else .error (.pathError .INVALID_INDEX)
        else
          if isGapFilling strat ∧ create ∧ t ≤ MAX_LIST_SIZE then
            .ok (.list (l ++ List.replicate (t.toNat - l.length) (fillPlaceholder strat) ++ [value]))
          else .error (.pathError .INVALID_INDEX)
    | .tuple _ => .error (.pathError .IMMUTABLE_CONTAINER)
    | _ => .error (.pathError .INVALID_PATH)
  | key :: next_key :: restTail =>
    let rest := next_key :: restTail
    match current with
    | .dict d =>
      match dictGet d key with
      | Option.none =>
        if create then do
          let child ← setSpec (create_for strat next_key) rest value create strat
          .ok (.dict (dictSet d key child))
        else .error (.pathError .MISSING_KEY)
      | some .none =>
        if create then do
          let child ← setSpec (create_for strat next_key) rest value create strat
          .ok (.dict (dictSet d key child))
        else .error (.pathError .MISSING_KEY)
      | some v => do
        let child ← setSpec v rest value create strat
        .ok (.dict (dictSet d key child))
    | .list l =>
      match parse_int_key key with
      | .error e => .error e
      | .ok t =>
        if t < 0 then
          let resolved : Int := (l.length : Int) + t
          if 0 ≤ resolved ∧ resolved < (l.length : Int) then
            match l.get? resolved.toNat with
            | some v => do
              let child ← setSpec v rest value create strat
              .ok (.list (l.set resolved.toNat child))
            | Option.none => .error (.pathError .INVALID_INDEX)  -- unreachable: in bounds
          else .error (.pathError .INVALID_INDEX)
        else if t < (l.length : Int) then
          match l.get? t.toNat with
          | some v => do
            let child ← setSpec v rest value create strat
            .ok (.list (l.set t.toNat child))
          | Option.none => .error (.pathError .INVALID_INDEX)  -- unreachable: in bounds
        else if t = (l.length : Int) then
          if create then do
            let child ← setSpec (create_for strat next_key) rest value create strat
            .ok (.list (l ++ [child]))
          else .error (.pathError .INVALID_INDEX)
        else
          if isGapFilling strat ∧ create ∧ t ≤ MAX_LIST_SIZE then do
            let child ← setSpec (create_for strat next_key) rest value create strat
            .ok (.list (l ++ List.replicate (t.toNat - l.length) (fillPlaceholder strat) ++ [child]))
          else .error (.pathError .INVALID_INDEX)
    | .tuple _ => .error (.pathError .IMMUTABLE_CONTAINER)
    | _ => .error (.pathError .INVALID_PATH)

/-- A list-path element whose normalization fails: an empty string, or an
object whose str() is empty. -/
def isEmptyTok : PTok → Bool
  | .str s => s = ""
  | .other r => r = ""
  | .int _ => false

/-- The key a non-failing list-path element normalizes to: strings and
integers keep their native kind, other objects are stringified. -/
def tokToKey : PTok → Key
  | .str s => .str s
  | .int n => .int n
  | .other r => .str r

/-! Theorems settling the claims. -/

/-- normListTok on a non-failing element yields its key unchanged in kind. -/
theorem normListTok_ok (t : PTok) (h : isEmptyTok t = false) :
    normListTok t = .ok (tokToKey t) := by
  cases t <;> simp_all [isEmptyTok, normListTok, tokToKey]

/-- normListTok on a failing element raises EMPTY_PATH. -/
theorem normListTok_empty (t : PTok) (h : isEmptyTok t = true) :
    normListTok t = .error (.pathError .EMPTY_PATH) := by
  cases t <;> simp_all [isEmptyTok, normListTok]

/-- The normalization loop succeeds on a list of non-failing elements,
preserving each element's kind. -/
theorem normListToks_ok (toks : List PTok) (h : ∀ t ∈ toks, isEmptyTok t = false) :
    normListToks toks = .ok (toks.map tokToKey) := by
  induction toks with
  | nil => rfl
  | cons t ts ih =>
    have ht : isEmptyTok t = false := h t (by simp)
    have hts := ih (fun u hu => h u (by simp [hu]))
    simp [normListToks, normListTok_ok t ht, hts, Bind.bind, Except.bind]

/-- The normalization loop raises EMPTY_PATH whenever some element fails
(EMPTY_PATH is the only error it can produce, so the first failure is it). -/
theorem normListToks_empty (toks : List PTok) (t : PTok) (hmem : t ∈ toks)
    (ht : isEmptyTok t = true) :
    normListToks toks = .error (.pathError .EMPTY_PATH) := by
  induction toks with
  | nil => cases hmem
  | cons u ts ih =>
    by_cases hu : isEmptyTok u = true
    · simp [normListToks, normListTok_empty u hu, Bind.bind, Except.bind]
    · have hu' : isEmptyTok u = false := by simpa using hu
      rcases List.mem_cons.mp hmem with rfl | hmem'
      · exact absurd ht (by simp [hu'])
      · simp [normListToks, normListTok_ok u hu', ih hmem', Bind.bind, Except.bind]

/-- A non-failing element never normalizes to the empty string key. -/
theorem tokToKey_ne_empty (t : PTok) (h : isEmptyTok t = false) :
    tokToKey t ≠ .str "" := by
  cases t <;> simp_all [isEmptyTok, tokToKey]

/-- splitDotsGo always yields at least one segment. -/
theorem splitDotsGo_ne_nil (cs acc : List Char) : splitDotsGo cs acc ≠ [] := by
  induction cs generalizing acc with
  | nil => simp [splitDotsGo]
  | cons c cs ih =>
    by_cases hc : c = '.' <;> simp [splitDotsGo, hc, ih]

/-- splitDots always yields at least one segment (Python str.split never
returns an empty list). -/
theorem splitDots_ne_nil (s : String) : splitDots s ≠ [] :=
  splitDotsGo_ne_nil s.data []

/-- normalize_path only fails with EMPTY_PATH or INVALID_PATH. -/
theorem normalize_path_error_code (p : PathArg) (e : PyError)
    (h : normalize_path p = .error e) :
    e = .pathError .EMPTY_PATH ∨ e = .pathError .INVALID_PATH := by
  cases p with
  | str s =>
    simp only [normalize_path] at h
    split at h
    · simp_all
    · split at h
      · simp_all
      · split at h <;> simp_all
  | list toks =>
    simp only [normalize_path, Bind.bind, Except.bind] at h
    rcases hnt : normListToks toks with e' | keys
    · have : e' = .pathError .EMPTY_PATH := by
        rcases hne : toks.find? (fun t => isEmptyTok t) with _ | t
        · -- no failing element, so the loop succeeds: contradiction
          have hall : ∀ t ∈ toks, isEmptyTok t = false := by
            intro t hmem
            by_contra hx
            have := List.find?_eq_none.mp hne t hmem
            simp_all
          rw [normListToks_ok toks hall] at hnt
          cases hnt
        · have hmem := List.mem_of_find?_eq_some hne
          have hemp := List.find?_some hne
          rw [normListToks_empty toks t hmem (by simpa using hemp)] at hnt
          exact ((Except.error.injEq _ _).mp hnt).symm
      rw [hnt] at h
      simp only [] at h
      cases h
      exact Or.inl this
    · rw [hnt] at h
      simp only [] at h
      split at h
      · simp_all
      · split at h
        · simp_all
        · split at h <;> simp_all
  | other =>
    simp only [normalize_path] at h
    cases h
    exact Or.inr rfl

/-- C10: for every malformed path argument, get_at raises the corresponding
EMPTY_PATH or INVALID_PATH PathError even when a default is supplied,
because normalization runs before traversal and before default handling. -/
theorem claim_c10_malformed_path_raises_despite_default (p : PathArg) (e : PyError)
    (h : normalize_path p = .error e) :
    (∀ root d : Value, get_at root p (some d) = .error e) ∧
    (e = .pathError .EMPTY_PATH ∨ e = .pathError .INVALID_PATH) := by
  refine ⟨fun root d => ?_, normalize_path_error_code p e h⟩
  simp [get_at, h, Bind.bind, Except.bind]

/-- C10 witness: the theorem at the empty-string path with root the empty
dict and default 0. -/
theorem claim_c10_malformed_path_raises_despite_default_witness :
    get_at (.dict []) (.str "") (some (.int 0)) = .error (.pathError .EMPTY_PATH) :=
  (claim_c10_malformed_path_raises_despite_default (.str "")
    (.pathError .EMPTY_PATH) rfl).1 (.dict []) (.int 0)

/-- C1: the claim says exists_at converts every not-found classification of
the internal get to false and never raises for navigation reasons.  The
code does not: its except handler evaluates the tuple (MISSING_KEY,
INVALID_INDEX, NON_NAVIGABLE_TYPE), and NON_NAVIGABLE_TYPE is not a member
of PathErrorCode, so on root = a maps to 1 and path b — a plain missing
key — exists_at raises AttributeError instead of returning false, while
the repository's own test_exists.py expects False here. -/
theorem claim_c1_exists_at_raises_attribute_error :
    exists_at (.dict [(.str "a", .int 1)]) (.str "b") =
      .error (.attributeError "NON_NAVIGABLE_TYPE") := rfl

/-- C2: the claim says a failing get_at with no default raises a classified
PathError, with code NonNavigable for navigation into a leaf.  On
root = a maps to 1 and path a.b the code instead raises AttributeError,
because PathErrorCode.NON_NAVIGABLE_TYPE does not exist in enums.py; the
default-suppression half of the claim does hold at the same input (the
default is returned before the enum member is evaluated). -/
theorem claim_c2_get_at_raises_attribute_error_on_leaf :
    get_at (.dict [(.str "a", .int 1)]) (.str "a.b") Option.none =
      .error (.attributeError "NON_NAVIGABLE_TYPE") ∧
    get_at (.dict [(.str "a", .int 1)]) (.str "a.b") (some (.int 99)) =
      .ok (.int 99) :=
  ⟨rfl, rfl⟩

/-- C3 counterexample: on root with list [1,2,3], delete_at without list
mutation fails with code INVALID_PATH, not with an OperationDisabled
classification (which PathErrorCode does not even contain); the
repository's test_delete.py asserts INVALID_PATH for exactly this case. -/
theorem claim_c3_counterexample_invalid_path_not_operation_disabled :
    delete_at (.dict [(.str "list", .list [.int 1, .int 2, .int 3])])
        (.str "list.0") false =
      .error (.pathError .INVALID_PATH) := rfl

/-- C3 amended: delete_at of list.0 on root with list [1,2,3] without
opting in to list mutation fails with the InvalidPath classification (the
error taxonomy has no OperationDisabled code); the same call with
allow_list_mutation true succeeds, returns 1, and leaves the list equal to
[2,3]. -/
theorem claim_c3_delete_disabled_by_default :
    delete_at (.dict [(.str "list", .list [.int 1, .int 2, .int 3])])
        (.str "list.0") false =
      .error (.pathError .INVALID_PATH) ∧
    delete_at (.dict [(.str "list", .list [.int 1, .int 2, .int 3])])
        (.str "list.0") true =
      .ok (.int 1, .dict [(.str "list", .list [.int 2, .int 3])]) :=
  ⟨rfl, rfl⟩

/-- C6 (against the spec-modelled fill-strategy set, the implementation
being absent from src/): for every fill strategy and value, with create
enabled, setting token path a, 5 on a root whose a holds an empty sequence
succeeds under a gap-filling strategy and leaves at a a sequence of length
exactly 6 whose indices 0 through 4 hold the fill placeholder, and fails
with InvalidIndex under a non-gap-filling strategy. -/
theorem claim_c6_fill_strategy_gap_fill (strat : FillStrategy) (v : Value) :
    (isGapFilling strat = true →
      setSpec (.dict [(.str "a", .list [])]) [.str "a", .str "5"] v true strat =
        .ok (.dict [(.str "a",
          .list (List.replicate 5 (fillPlaceholder strat) ++ [v]))])) ∧
    (isGapFilling strat = false →
      setSpec (.dict [(.str "a", .list [])]) [.str "a", .str "5"] v true strat =
        .error (.pathError .INVALID_INDEX)) := by
  cases strat <;>
    exact ⟨fun h => by first | rfl | exact absurd h (by decide),
           fun h => by first | rfl | exact absurd h (by decide)⟩

/-- C6 witness: the theorem applied at the none-fill strategy (gap-filling)
and at the default auto strategy (not gap-filling), with value 7. -/
theorem claim_c6_fill_strategy_gap_fill_witness :
    setSpec (.dict [(.str "a", .list [])]) [.str "a", .str "5"] (.int 7) true .noneFill =
      .ok (.dict [(.str "a",
        .list [.none, .none, .none, .none, .none, .int 7])]) ∧
    setSpec (.dict [(.str "a", .list [])]) [.str "a", .str "5"] (.int 7) true .auto =
      .error (.pathError .INVALID_INDEX) :=
  ⟨(claim_c6_fill_strategy_gap_fill .noneFill (.int 7)).1 rfl,
   (claim_c6_fill_strategy_gap_fill .auto (.int 7)).2 rfl⟩


/-- C7: normalize_path fails with EMPTY_PATH on the empty string, the empty
list, and any path with an empty token after splitting or stringifying
(for string paths once the depth bound allows the empty-token check to be
reached, for list paths unconditionally since their loop checks tokens
first); fails with INVALID_PATH on a non-string non-list argument and when
the token count exceeds the maximum depth 100; splits string paths on the
dot so consecutive, leading or trailing dots fail; and preserves the native
string-or-integer kind of every element of a list path. -/
theorem claim_c7_normalize_path_contract :
    normalize_path (.str "") = .error (.pathError .EMPTY_PATH)
    ∧ normalize_path (.list []) = .error (.pathError .EMPTY_PATH)
    ∧ normalize_path .other = .error (.pathError .INVALID_PATH)
    ∧ (∀ s : String, "" ∈ splitDots s → (splitDots s).length ≤ MAX_DEPTH →
        normalize_path (.str s) = .error (.pathError .EMPTY_PATH))
    ∧ (∀ (toks : List PTok) (t : PTok), t ∈ toks → isEmptyTok t = true →
        normalize_path (.list toks) = .error (.pathError .EMPTY_PATH))
    ∧ (∀ s : String, (splitDots s).length > MAX_DEPTH →
        normalize_path (.str s) = .error (.pathError .INVALID_PATH))
    ∧ (∀ toks : List PTok, toks.length > MAX_DEPTH →
        (∀ t ∈ toks, isEmptyTok t = false) →
        normalize_path (.list toks) = .error (.pathError .INVALID_PATH))
    ∧ normalize_path (.str "a..b") = .error (.pathError .EMPTY_PATH)
    ∧ normalize_path (.str ".a") = .error (.pathError .EMPTY_PATH)
    ∧ normalize_path (.str "a.") = .error (.pathError .EMPTY_PATH)
    ∧ (∀ s : String, "" ∉ splitDots s → (splitDots s).length ≤ MAX_DEPTH →
        normalize_path (.str s) = .ok ((splitDots s).map Key.str))
    ∧ (∀ toks : List PTok, toks ≠ [] → toks.length ≤ MAX_DEPTH →
        (∀ t ∈ toks, isEmptyTok t = false) →
        normalize_path (.list toks) = .ok (toks.map tokToKey)) := by
  refine ⟨rfl, rfl, rfl, ?_, ?_, ?_, ?_, rfl, rfl, rfl, ?_, ?_⟩
  · intro s hmem hlen
    have hne : splitDots s ≠ [] := splitDots_ne_nil s
    have hany : ((splitDots s).map Key.str).any (fun k => k = .str "") = true := by
      rw [List.any_eq_true]
      exact ⟨Key.str "", List.mem_map_of_mem _ hmem, by simp⟩
    simp only [normalize_path]
    split_ifs with h1 h2 h3 <;> (try simp_all) <;> omega
  · intro toks t hmem ht
    simp only [normalize_path, Bind.bind, Except.bind, normListToks_empty toks t hmem ht]
  · intro s hlen
    have hne : splitDots s ≠ [] := splitDots_ne_nil s
    simp only [normalize_path]
    split_ifs with h1 h2 <;> (try simp_all) <;> omega
  · intro toks hlen hall
    simp only [normalize_path, Bind.bind, Except.bind, normListToks_ok toks hall]
    have hne : toks.map tokToKey ≠ [] := by
      intro hx
      rw [List.map_eq_nil_iff] at hx
      subst hx
      simp [MAX_DEPTH] at hlen
    split_ifs with h1 h2 <;> simp_all
  · intro s hmem hlen
    have hne : splitDots s ≠ [] := splitDots_ne_nil s
    have hany : ((splitDots s).map Key.str).any (fun k => k = .str "") = false := by
      rw [List.any_eq_false]
      intro k hk
      obtain ⟨x, hx, rfl⟩ := List.mem_map.mp hk
      simp only [decide_eq_true_eq]
      intro hcontra
      have hx0 : x = "" := by injection hcontra
      exact hmem (hx0 ▸ hx)
    simp only [normalize_path]
    split_ifs with h1 h2 h3 <;> (try simp_all) <;> omega
  · intro toks hne hlen hall
    simp only [normalize_path, Bind.bind, Except.bind, normListToks_ok toks hall]
    have hne2 : toks.map tokToKey ≠ [] := by simpa using hne
    have hany : (toks.map tokToKey).any (fun k => k = .str "") = false := by
      rw [List.any_eq_false]
      intro k hk
      obtain ⟨t, hmem, rfl⟩ := List.mem_map.mp hk
      simp only [decide_eq_true_eq]
      exact tokToKey_ne_empty t (hall t hmem)
    split_ifs with h1 h2 h3 <;> (try simp_all) <;> omega

/-- C7 witness: the hypothesis-bearing components applied at concrete
inputs — an inner empty token in a string path, an empty string inside a
list path, 101 dots as a string path, a 101-element list path, and two
well-formed paths including kind preservation for a negative integer and a
stringified object. -/
theorem claim_c7_normalize_path_contract_witness :
    normalize_path (.str "x..y") = .error (.pathError .EMPTY_PATH)
    ∧ normalize_path (.list [.str "a", .str ""]) = .error (.pathError .EMPTY_PATH)
    ∧ normalize_path (.str (String.mk (List.replicate 101 '.'))) =
        .error (.pathError .INVALID_PATH)
    ∧ normalize_path (.list (List.replicate 101 (.int 0))) =
        .error (.pathError .INVALID_PATH)
    ∧ normalize_path (.str "a.b") = .ok [.str "a", .str "b"]
    ∧ normalize_path (.list [.str "a", .int (-1), .other "x"]) =
        .ok [.str "a", .int (-1), .str "x"] :=
  ⟨claim_c7_normalize_path_contract.2.2.2.1 "x..y" (by decide) (by decide),
   claim_c7_normalize_path_contract.2.2.2.2.1 [.str "a", .str ""] (.str "")
     (by decide) rfl,
   claim_c7_normalize_path_contract.2.2.2.2.2.1 (String.mk (List.replicate 101 '.'))
     (by decide),
   claim_c7_normalize_path_contract.2.2.2.2.2.2.1 (List.replicate 101 (.int 0))
     (by decide) (by decide),
   claim_c7_normalize_path_contract.2.2.2.2.2.2.2.2.2.2.1 "a.b" (by decide) (by decide),
   claim_c7_normalize_path_contract.2.2.2.2.2.2.2.2.2.2.2
     [.str "a", .int (-1), .other "x"] (by decide) (by decide) (by decide)⟩

/-- The token guard of resolve_write_index: anything above MAX_LIST_SIZE
fails before the length is consulted. -/
theorem resolve_write_index_over_max (l : List Value) (t : Int)
    (ht : MAX_LIST_SIZE < t) :
    resolve_write_index l (.int t) = .error (.pathError .INVALID_INDEX) := by
  simp only [resolve_write_index, parse_int_key]
  split_ifs <;> first | rfl | omega

/-- C5 counterexample: the claim states a non-negative token succeeds
exactly when it does not exceed the length, but for a list of length 10001
the token 10001 satisfies that bound and still fails, because the
MAX_LIST_SIZE guard is checked first. -/
theorem claim_c5_counterexample_max_guard_precedes_length_rule :
    (10001 : Int) ≤ ((List.replicate 10001 (Value.int 0)).length : Int) ∧
    resolve_write_index (List.replicate 10001 (Value.int 0)) (.int 10001) =
      .error (.pathError .INVALID_INDEX) := by
  constructor
  · rw [List.length_replicate]
    norm_num
  · exact resolve_write_index_over_max _ _ (by norm_num [MAX_LIST_SIZE])

/-- C5 amended: for a list of length n and integer token t, a negative t
resolves to n+t and succeeds exactly when 0 ≤ n+t, failing with
InvalidIndex otherwise; a non-negative t succeeds exactly when t ≤ n
(t = n meaning append) and additionally t ≤ 10000, failing with
InvalidIndex when t > n; and any t greater than 10000 fails with
InvalidIndex. -/
theorem claim_c5_resolve_write_index_policy (l : List Value) (t : Int) :
    (t < 0 → 0 ≤ (l.length : Int) + t →
      resolve_write_index l (.int t) = .ok ((l.length : Int) + t).toNat)
    ∧ (t < 0 → (l.length : Int) + t < 0 →
      resolve_write_index l (.int t) = .error (.pathError .INVALID_INDEX))
    ∧ (0 ≤ t → t ≤ (l.length : Int) → t ≤ 10000 →
      resolve_write_index l (.int t) = .ok t.toNat)
    ∧ (0 ≤ t → (l.length : Int) < t →
      resolve_write_index l (.int t) = .error (.pathError .INVALID_INDEX))
    ∧ (10000 < t →
      resolve_write_index l (.int t) = .error (.pathError .INVALID_INDEX)) := by
  simp only [resolve_write_index, parse_int_key, MAX_LIST_SIZE]
  refine ⟨?_, ?_, ?_, ?_, ?_⟩ <;> intros <;> split_ifs <;> first | rfl | omega

/-- C5 witness: the theorem at a singleton list with tokens -1 (in-bounds
negative), -2 (out-of-bounds negative), 1 (append), 2 (beyond length) and
10001 (beyond the maximum size). -/
theorem claim_c5_resolve_write_index_policy_witness :
    resolve_write_index [Value.int 0] (.int (-1)) = .ok 0 ∧
    resolve_write_index [Value.int 0] (.int (-2)) = .error (.pathError .INVALID_INDEX) ∧
    resolve_write_index [Value.int 0] (.int 1) = .ok 1 ∧
    resolve_write_index [Value.int 0] (.int 2) = .error (.pathError .INVALID_INDEX) ∧
    resolve_write_index [Value.int 0] (.int 10001) = .error (.pathError .INVALID_INDEX) :=
  ⟨(claim_c5_resolve_write_index_policy [Value.int 0] (-1)).1 (by decide) (by decide),
   (claim_c5_resolve_write_index_policy [Value.int 0] (-2)).2.1 (by decide) (by decide),
   (claim_c5_resolve_write_index_policy [Value.int 0] 1).2.2.1 (by decide) (by decide) (by decide),
   (claim_c5_resolve_write_index_policy [Value.int 0] 2).2.2.2.1 (by decide) (by decide),
   (claim_c5_resolve_write_index_policy [Value.int 0] 10001).2.2.2.2 (by decide)⟩

/-- resolve_read_index on a concrete integer token, in-bounds negative
case. -/
theorem resolve_read_index_int (l : List Value) (t : Int) :
    resolve_read_index l (.int t) =
      if 0 ≤ (if t < 0 then (l.length : Int) + t else t) ∧
          (if t < 0 then (l.length : Int) + t else t) < (l.length : Int)
      then .ok (some (if t < 0 then (l.length : Int) + t else t).toNat)
      else .ok Option.none := rfl

theorem resolve_read_index_neg (l : List Value) (t : Int) (ht : t < 0)
    (hb : 0 ≤ (l.length : Int) + t) :
    resolve_read_index l (.int t) = .ok (some ((l.length : Int) + t).toNat) := by
  rw [resolve_read_index_int]
  simp only [if_pos ht]
  rw [if_pos ⟨hb, by omega⟩]

/-- resolve_read_index on a concrete integer token, in-bounds non-negative
case. -/
theorem resolve_read_index_nonneg (l : List Value) (t : Int) (ht : 0 ≤ t)
    (hb : t < (l.length : Int)) :
    resolve_read_index l (.int t) = .ok (some t.toNat) := by
  rw [resolve_read_index_int]
  simp only [if_neg (show ¬t < 0 by omega)]
  rw [if_pos ⟨ht, hb⟩]

/-- C8: for a sequence of length n at least 1, get_at with final token -1
returns the same value as get_at with final token n-1; in general an
in-bounds negative token t resolves to n+t; and on a sequence of length 0
every negative token resolves as not found. -/
theorem claim_c8_negative_index_equivalence (l : List Value) :
    (1 ≤ l.length →
      get_at (.list l) (.list [.int (-1)]) Option.none =
        get_at (.list l) (.list [.int ((l.length : Int) - 1)]) Option.none)
    ∧ (∀ t : Int, t < 0 → 0 ≤ (l.length : Int) + t →
        resolve_read_index l (.int t) = .ok (some ((l.length : Int) + t).toNat))
    ∧ (∀ t : Int, t < 0 → l.length = 0 →
        resolve_read_index l (.int t) = .ok Option.none) := by
  refine ⟨?_, fun t ht hb => resolve_read_index_neg l t ht hb, ?_⟩
  · intro h1
    show getGo (.list l) [.int (-1)] Option.none =
      getGo (.list l) [.int ((l.length : Int) - 1)] Option.none
    have hL : resolve_read_index l (.int (-1)) = .ok (some (l.length - 1)) := by
      rw [resolve_read_index_neg l (-1) (by norm_num) (by omega)]
      congr 2
      omega
    have hR : resolve_read_index l (.int ((l.length : Int) - 1)) =
        .ok (some (l.length - 1)) := by
      rw [resolve_read_index_nonneg l _ (by omega) (by omega)]
      congr 2
      omega
    simp only [getGo, is_int_key, if_pos, hL, hR]
  · intro t ht h0
    rw [resolve_read_index_int]
    simp only [if_pos ht]
    rw [if_neg (by omega)]

/-- C8 witness: the equivalence on the list [10, 20, 30], the general
negative resolution on a singleton, and the empty-sequence case at
token -5. -/
theorem claim_c8_negative_index_equivalence_witness :
    get_at (.list [.int 10, .int 20, .int 30]) (.list [.int (-1)]) Option.none =
      get_at (.list [.int 10, .int 20, .int 30]) (.list [.int 2]) Option.none
    ∧ resolve_read_index [Value.int 10] (.int (-1)) = .ok (some 0)
    ∧ resolve_read_index ([] : List Value) (.int (-5)) = .ok Option.none :=
  ⟨(claim_c8_negative_index_equivalence [.int 10, .int 20, .int 30]).1 (by decide),
   (claim_c8_negative_index_equivalence [Value.int 10]).2.1 (-1) (by decide) (by decide),
   (claim_c8_negative_index_equivalence []).2.2 (-5) (by decide) rfl⟩

/-- Deleting index i shifts every later element one slot down. -/
theorem eraseIdx_get?_shift {α : Type} :
    ∀ (l : List α) (i j : Nat), i < j → j < l.length →
      (l.eraseIdx i).get? (j - 1) = l.get? j := by
  intro l
  induction l with
  | nil =>
    intro i j _ hj
    simp at hj
  | cons x xs ih =>
    intro i j hij hj
    cases i with
    | zero =>
      cases j with
      | zero => omega
      | succ j' => simp [List.eraseIdx]
    | succ i' =>
      cases j with
      | zero => omega
      | succ j' =>
        cases j' with
        | zero => omega
        | succ j2 =>
          have := ih i' (j2 + 1) (by omega) (by simpa using hj)
          simpa [List.eraseIdx] using this

/-- C9: with list mutation opted in, delete_at whose final token resolves
to index i of a sequence of length n removes and returns the element at i,
the length becomes n-1, and every element formerly at j with i < j < n is
afterwards at j-1. -/
theorem claim_c9_delete_shifts_indices (l : List Value) (t : Int) (i : Nat)
    (h : resolve_read_index l (.int t) = .ok (some i)) :
    ∃ hi : i < l.length,
      delete_at (.list l) (.list [.int t]) true =
        .ok (l.get ⟨i, hi⟩, .list (l.eraseIdx i)) ∧
      (l.eraseIdx i).length = l.length - 1 ∧
      ∀ j (hj : j < l.length), i < j →
        (l.eraseIdx i).get? (j - 1) = some (l.get ⟨j, hj⟩) := by
  have hi : i < l.length := by
    rw [resolve_read_index_int] at h
    by_cases htt : t < 0
    · simp only [if_pos htt] at h
      split_ifs at h with hc
      · simp only [Except.ok.injEq, Option.some.injEq] at h
        omega
      · simp at h
    · simp only [if_neg htt] at h
      split_ifs at h with hc
      · simp only [Except.ok.injEq, Option.some.injEq] at h
        omega
      · simp at h
  refine ⟨hi, ?_, List.length_eraseIdx_of_lt hi, ?_⟩
  · show deleteGo (.list l) [.int t] true = _
    simp only [deleteGo, is_int_key, h, List.get?_eq_get hi]
    simp
  · intro j hj hij
    rw [eraseIdx_get?_shift l i j hij hj, List.get?_eq_get hj]

/-- C9 witness: the theorem at the list [10, 20, 30] with token 1 resolving
to index 1. -/
theorem claim_c9_delete_shifts_indices_witness :
    ∃ hi : 1 < [Value.int 10, Value.int 20, Value.int 30].length,
      delete_at (.list [.int 10, .int 20, .int 30]) (.list [.int 1]) true =
        .ok ([Value.int 10, Value.int 20, Value.int 30].get ⟨1, hi⟩,
          .list ([Value.int 10, Value.int 20, Value.int 30].eraseIdx 1)) ∧
      ([Value.int 10, Value.int 20, Value.int 30].eraseIdx 1).length =
        [Value.int 10, Value.int 20, Value.int 30].length - 1 ∧
      ∀ j (hj : j < [Value.int 10, Value.int 20, Value.int 30].length), 1 < j →
        (([Value.int 10, Value.int 20, Value.int 30].eraseIdx 1)).get? (j - 1) =
          some ([Value.int 10, Value.int 20, Value.int 30].get ⟨j, hj⟩) :=
  claim_c9_delete_shifts_indices [.int 10, .int 20, .int 30] 1 1 rfl

/-- Looking up the key just assigned returns the assigned value. -/
theorem dictGet_dictSet (d : List (Key × Value)) (k : Key) (v : Value) :
    dictGet (dictSet d k v) k = some v := by
  induction d with
  | nil => simp [dictSet, dictGet]
  | cons p rest ih =>
    obtain ⟨k2, v2⟩ := p
    by_cases hp : k2 = k
    · simp [dictSet, dictGet, hp]
    · simp [dictSet, dictGet, hp, ih]

/-- resolve_write_index with a failing token parse propagates the parse
error. -/
theorem resolve_write_index_parse_err (l : List Value) (k : Key) (e : PyError)
    (hp : parse_int_key k = .error e) :
    resolve_write_index l k = .error e := by
  simp only [resolve_write_index, hp]

/-- resolve_write_index with a parsed token, written with the local
variable expanded. -/
theorem resolve_write_index_parse (l : List Value) (k : Key) (t : Int)
    (hp : parse_int_key k = .ok t) :
    resolve_write_index l k =
      if t > MAX_LIST_SIZE then .error (.pathError .INVALID_INDEX)
      else if t < 0 then
        if (l.length : Int) + t < 0 ∨ (l.length : Int) + t ≥ (l.length : Int)
        then .error (.pathError .INVALID_INDEX)
        else .ok ((l.length : Int) + t).toNat
      else if t > (l.length : Int) then .error (.pathError .INVALID_INDEX)
      else .ok t.toNat := by
  simp only [resolve_write_index, hp]

/-- resolve_read_index with a parsed token, written with the local variable
expanded. -/
theorem resolve_read_index_parse (l : List Value) (k : Key) (t : Int)
    (hp : parse_int_key k = .ok t) :
    resolve_read_index l k =
      if 0 ≤ (if t < 0 then (l.length : Int) + t else t) ∧
          (if t < 0 then (l.length : Int) + t else t) < (l.length : Int)
      then .ok (some (if t < 0 then (l.length : Int) + t else t).toNat)
      else .ok Option.none := by
  simp only [resolve_read_index, hp]

/-- A key whose parse succeeds is an int key. -/
theorem is_int_key_of_parse (k : Key) (t : Int) (hp : parse_int_key k = .ok t) :
    is_int_key k = true := by
  cases k with
  | int n => rfl
  | str s =>
    simp only [parse_int_key] at hp
    rcases hs : pyStrToInt? s with _ | n
    · rw [hs] at hp
      cases hp
    · have hs0 : s ≠ "" := by
        intro h0
        subst h0
        rw [show pyStrToInt? "" = Option.none from rfl] at hs
        cases hs
      simp [is_int_key, hs0, hs]

/-- Any index resolve_write_index accepts is at most the length. -/
theorem resolve_write_index_le (l : List Value) (k : Key) (idx : Nat)
    (h : resolve_write_index l k = .ok idx) : idx ≤ l.length := by
  rcases hp : parse_int_key k with e | t
  · rw [resolve_write_index_parse_err l k e hp] at h
    cases h
  · rw [resolve_write_index_parse l k t hp] at h
    split_ifs at h with h1 h2 h3 <;>
      simp only [Except.ok.injEq] at h <;> omega

/-- A key resolve_write_index accepts is an int key. -/
theorem resolve_write_index_int_key (l : List Value) (k : Key) (idx : Nat)
    (h : resolve_write_index l k = .ok idx) : is_int_key k = true := by
  rcases hp : parse_int_key k with e | t
  · rw [resolve_write_index_parse_err l k e hp] at h
    cases h
  · exact is_int_key_of_parse k t hp

/-- After an in-place write at the strictly resolved index, the permissive
read resolution of the same token lands on the same index. -/
theorem resolve_write_read_set (l : List Value) (k : Key) (idx : Nat) (v : Value)
    (h : resolve_write_index l k = .ok idx) (hlt : idx < l.length) :
    resolve_read_index (l.set idx v) k = .ok (some idx) := by
  rcases hp : parse_int_key k with e | t
  · rw [resolve_write_index_parse_err l k e hp] at h
    cases h
  · rw [resolve_write_index_parse l k t hp] at h
    rw [resolve_read_index_parse (l.set idx v) k t hp]
    rw [List.length_set]
    split_ifs at h ⊢ <;>
      simp_all only [Except.ok.injEq, Option.some.injEq, Except.error.injEq] <;>
      omega

/-- After an append at the strictly resolved index (exactly the length),
the permissive read resolution of the same token lands on that index. -/
theorem resolve_write_read_append (l : List Value) (k : Key) (v : Value)
    (h : resolve_write_index l k = .ok l.length) :
    resolve_read_index (l ++ [v]) k = .ok (some l.length) := by
  rcases hp : parse_int_key k with e | t
  · rw [resolve_write_index_parse_err l k e hp] at h
    cases h
  · rw [resolve_write_index_parse l k t hp] at h
    rw [resolve_read_index_parse (l ++ [v]) k t hp]
    rw [List.length_append, List.length_singleton]
    split_ifs at h ⊢ <;>
      simp_all only [Except.ok.injEq, Option.some.injEq, Except.error.injEq] <;>
      omega

/-- The heart of the round-trip property: reading back along the very keys
a successful set traversed yields the written value. -/
theorem setGo_getGo_roundtrip :
    ∀ (ks : List Key) (root v root' : Value) (c : Bool),
      setGo root ks v c = .ok root' → getGo root' ks Option.none = .ok v := by
  intro ks
  induction ks with
  | nil =>
    intro root v root' c h
    simp [setGo] at h
  | cons k rest ih =>
    intro root v root' c h
    cases rest with
    | nil =>
      rw [show setGo root [k] v c = setFinal root k v c from rfl] at h
      cases root with
      | dict d =>
        simp only [setFinal, Except.ok.injEq] at h
        subst h
        simp only [getGo, dictGet_dictSet]
      | list l =>
        simp only [setFinal] at h
        cases hik : is_int_key k with
        | false =>
          rw [if_neg (by simp [hik])] at h
          cases h
        | true =>
          rw [if_pos hik] at h
          rcases hw : resolve_write_index l k with e | idx <;>
            simp only [hw] at h
          · cases h
          · by_cases hidx : idx = l.length
            · rw [if_pos hidx] at h
              cases hc : c with
              | false =>
                rw [hc, if_neg (by simp)] at h
                cases h
              | true =>
                rw [hc, if_pos rfl] at h
                simp only [Except.ok.injEq] at h
                subst h
                subst hidx
                simp only [getGo, hik, if_true, resolve_write_read_append l k v hw,
                  List.get?_concat_length]
            · rw [if_neg hidx] at h
              simp only [Except.ok.injEq] at h
              subst h
              have hlt : idx < l.length :=
                lt_of_le_of_ne (resolve_write_index_le l k idx hw) hidx
              simp only [getGo, hik, if_true, resolve_write_read_set l k idx v hw hlt,
                List.get?_set_eq_of_lt v hlt]
      | tuple l => cases h
      | none => cases h
      | int n => cases h
      | str s => cases h
    | cons nk rest2 =>
      cases root with
      | dict d =>
        simp only [setGo] at h
        rcases hget : dictGet d k with _ | child
        · simp only [hget] at h
          cases hc : c with
          | false =>
            rw [hc, if_neg (by simp)] at h
            cases h
          | true =>
            rw [hc, if_pos rfl] at h
            rcases hsg : setGo (create_intermediate_container nk) (nk :: rest2) v true
              with e | child2
            · simp only [hsg, Bind.bind, Except.bind] at h
              cases h
            · simp only [hsg, Bind.bind, Except.bind, Except.ok.injEq] at h
              subst h
              simp only [getGo, dictGet_dictSet]
              exact ih (create_intermediate_container nk) v child2 true hsg
        · simp only [hget] at h
          cases child with
          | none =>
            cases hc : c with
            | false =>
              rw [hc, if_neg (by simp)] at h
              cases h
            | true =>
              rw [hc, if_pos rfl] at h
              rcases hsg : setGo (create_intermediate_container nk) (nk :: rest2) v true
                with e | child2
              · simp only [hsg, Bind.bind, Except.bind] at h
                cases h
              · simp only [hsg, Bind.bind, Except.bind, Except.ok.injEq] at h
                subst h
                simp only [getGo, dictGet_dictSet]
                exact ih (create_intermediate_container nk) v child2 true hsg
          | dict d2 =>
            rcases hsg : setGo (.dict d2) (nk :: rest2) v c with e | child2
            · simp only [hsg, Bind.bind, Except.bind] at h
              cases h
            · simp only [hsg, Bind.bind, Except.bind, Except.ok.injEq] at h
              subst h
              simp only [getGo, dictGet_dictSet]
              exact ih (.dict d2) v child2 c hsg
          | list l2 =>
            rcases hsg : setGo (.list l2) (nk :: rest2) v c with e | child2
            · simp only [hsg, Bind.bind, Except.bind] at h
              cases h
            · simp only [hsg, Bind.bind, Except.bind, Except.ok.injEq] at h
              subst h
              simp only [getGo, dictGet_dictSet]
              exact ih (.list l2) v child2 c hsg
          | tuple l2 =>
            rcases hsg : setGo (.tuple l2) (nk :: rest2) v c with e | child2
            · simp only [hsg, Bind.bind, Except.bind] at h
              cases h
            · simp only [hsg, Bind.bind, Except.bind, Except.ok.injEq] at h
              subst h
              simp only [getGo, dictGet_dictSet]
              exact ih (.tuple l2) v child2 c hsg
          | int n2 =>
            rcases hsg : setGo (.int n2) (nk :: rest2) v c with e | child2
            · simp only [hsg, Bind.bind, Except.bind] at h
              cases h
            · simp only [hsg, Bind.bind, Except.bind, Except.ok.injEq] at h
              subst h
              simp only [getGo, dictGet_dictSet]
              exact ih (.int n2) v child2 c hsg
          | str s2 =>
            rcases hsg : setGo (.str s2) (nk :: rest2) v c with e | child2
            · simp only [hsg, Bind.bind, Except.bind] at h
              cases h
            · simp only [hsg, Bind.bind, Except.bind, Except.ok.injEq] at h
              subst h
              simp only [getGo, dictGet_dictSet]
              exact ih (.str s2) v child2 c hsg
      | list l =>
        simp only [setGo] at h
        cases hik : is_int_key k with
        | false =>
          rw [if_neg (by simp [hik])] at h
          cases h
        | true =>
          rw [if_pos hik] at h
          rcases hw : resolve_write_index l k with e | idx <;>
            simp only [hw] at h
          · cases h
          · by_cases hidx : idx = l.length
            · rw [if_pos hidx] at h
              cases hc : c with
              | false =>
                rw [hc, if_neg (by simp)] at h
                cases h
              | true =>
                rw [hc, if_pos rfl] at h
                rcases hsg : setGo (create_intermediate_container nk) (nk :: rest2) v true
                  with e | child2
                · simp only [hsg, Bind.bind, Except.bind] at h
                  cases h
                · simp only [hsg, Bind.bind, Except.bind, Except.ok.injEq] at h
                  subst h
                  subst hidx
                  simp only [getGo, hik, if_true,
                    resolve_write_read_append l k child2 hw, List.get?_concat_length]
                  exact ih (create_intermediate_container nk) v child2 true hsg
            · rw [if_neg hidx] at h
              have hlt : idx < l.length :=
                lt_of_le_of_ne (resolve_write_index_le l k idx hw) hidx
              rw [List.get?_eq_get hlt] at h
              cases hgv : l.get ⟨idx, hlt⟩ with
              | none =>
                simp only [hgv] at h
                cases hc : c with
                | false =>
                  rw [hc, if_neg (by simp)] at h
                  cases h
                | true =>
                  rw [hc, if_pos rfl] at h
                  rcases hsg : setGo (create_intermediate_container nk) (nk :: rest2) v true
                    with e | child2
                  · simp only [hsg, Bind.bind, Except.bind] at h
                    cases h
                  · simp only [hsg, Bind.bind, Except.bind, Except.ok.injEq] at h
                    subst h
                    simp only [getGo, hik, if_true,
                      resolve_write_read_set l k idx child2 hw hlt,
                      List.get?_set_eq_of_lt child2 hlt]
                    exact ih (create_intermediate_container nk) v child2 true hsg
              | dict d2 =>
                simp only [hgv] at h
                rcases hsg : setGo (.dict d2) (nk :: rest2) v c with e | child2
                · simp only [hsg, Bind.bind, Except.bind] at h
                  cases h
                · simp only [hsg, Bind.bind, Except.bind, Except.ok.injEq] at h
                  subst h
                  simp only [getGo, hik, if_true,
                    resolve_write_read_set l k idx child2 hw hlt,
                    List.get?_set_eq_of_lt child2 hlt]
                  exact ih (.dict d2) v child2 c hsg
              | list l2 =>
                simp only [hgv] at h
                rcases hsg : setGo (.list l2) (nk :: rest2) v c with e | child2
                · simp only [hsg, Bind.bind, Except.bind] at h
                  cases h
                · simp only [hsg, Bind.bind, Except.bind, Except.ok.injEq] at h
                  subst h
                  simp only [getGo, hik, if_true,
                    resolve_write_read_set l k idx child2 hw hlt,
                    List.get?_set_eq_of_lt child2 hlt]
                  exact ih (.list l2) v child2 c hsg
              | tuple l2 =>
                simp only [hgv] at h
                rcases hsg : setGo (.tuple l2) (nk :: rest2) v c with e | child2
                · simp only [hsg, Bind.bind, Except.bind] at h
                  cases h
                · simp only [hsg, Bind.bind, Except.bind, Except.ok.injEq] at h
                  subst h
                  simp only [getGo, hik, if_true,
                    resolve_write_read_set l k idx child2 hw hlt,
                    List.get?_set_eq_of_lt child2 hlt]
                  exact ih (.tuple l2) v child2 c hsg
              | int n2 =>
                simp only [hgv] at h
                rcases hsg : setGo (.int n2) (nk :: rest2) v c with e | child2
                · simp only [hsg, Bind.bind, Except.bind] at h
                  cases h
                · simp only [hsg, Bind.bind, Except.bind, Except.ok.injEq] at h
                  subst h
                  simp only [getGo, hik, if_true,
                    resolve_write_read_set l k idx child2 hw hlt,
                    List.get?_set_eq_of_lt child2 hlt]
                  exact ih (.int n2) v child2 c hsg
              | str s2 =>
                simp only [hgv] at h
                rcases hsg : setGo (.str s2) (nk :: rest2) v c with e | child2
                · simp only [hsg, Bind.bind, Except.bind] at h
                  cases h
                · simp only [hsg, Bind.bind, Except.bind, Except.ok.injEq] at h
                  subst h
                  simp only [getGo, hik, if_true,
                    resolve_write_read_set l k idx child2 hw hlt,
                    List.get?_set_eq_of_lt child2 hlt]
                  exact ih (.str s2) v child2 c hsg
      | tuple l => cases h
      | none => cases h
      | int n => cases h
      | str s => cases h

/-- C4: for every root, path and value, whenever set_at with create
enabled succeeds, get_at on the mutated root along the same path returns
exactly the written value. -/
theorem claim_c4_set_get_roundtrip (root : Value) (p : PathArg) (v root2 : Value)
    (h : set_at root p v true = .ok root2) :
    get_at root2 p Option.none = .ok v := by
  rcases hn : normalize_path p with e | ks
  · simp only [set_at, hn, Bind.bind, Except.bind] at h
    cases h
  · simp only [set_at, hn, Bind.bind, Except.bind] at h
    simp only [get_at, hn, Bind.bind, Except.bind]
    exact setGo_getGo_roundtrip ks root v root2 true h

/-- C4 witness: the theorem at the empty root, the path
user.profile.name and the value Alice, whose set result is computed
explicitly. -/
theorem claim_c4_set_get_roundtrip_witness :
    get_at (.dict [(.str "user", .dict [(.str "profile",
        .dict [(.str "name", .str "Alice")])])])
      (.str "user.profile.name") Option.none = .ok (.str "Alice") :=
  claim_c4_set_get_roundtrip (.dict []) (.str "user.profile.name") (.str "Alice")
    (.dict [(.str "user", .dict [(.str "profile",
      .dict [(.str "name", .str "Alice")])])]) rfl

end NestedUtils
